import Mathlib

/-!
Verification of the plantowatch-ranker crawler.

Shallow embedding of the Python sources:
  * src/anilist_api.py      : AnilistAPI._make_request, fetchCompletedAnime
                              (decode part), fetchAnimeCompleters
  * src/collect_userdata.py : fetch_and_store_ratings, save_checkpoint,
                              load_checkpoint, main

Network effects are modelled by passing the upstream behaviour as explicit
functions (the response of each attempt / page / user); time.sleep is
modelled by recording the slept durations in a list.
-/

namespace Ptw

/-! ## src/anilist_api.py : `_make_request`

An attempt of the `for attempt in range(max_retries)` loop either returns a
decoded JSON body (`requests.post` + `raise_for_status` + `.json()` all
succeed), or raises `requests.exceptions.RequestException`.  In the latter
case either an HTTP response exists (`raise_for_status` threw: status code
and, for the 404 inspection, the result of re-parsing its body as JSON), or
no response exists at all (`requests.post` itself threw, e.g. a network
error).  The locals `response` and `data` are only assigned inside the loop,
so they carry over from previous iterations: both are modelled as `Option`
state threaded through the loop (`none` = unbound). -/

/-- One element of the GraphQL `errors` list; `message` is read with
`.get('message', '')`, hence `Option String`. -/
structure GqlError where
  message : Option String
deriving Repr, DecidableEq

/-- The JSON body of an error response: just whether the `errors` key is
present and, if so, its list. -/
structure JsonBody where
  errors : Option (List GqlError)
deriving Repr, DecidableEq

/-- Outcome of one attempt of the request loop. `httpError st body` is a
response with a bad status code `st`, whose body re-parses as JSON to
`body = some j` or is not valid JSON (`body = none`).  `connError` is a
`RequestException` with no response object at all. -/
inductive AttemptOutcome (α : Type) where
  | success (resp : α)
  | httpError (status : Nat) (body : Option JsonBody)
  | connError
deriving Repr, DecidableEq

/-- The ways `_make_request` can finish: its return value, one of the three
documented exceptions, or an undocumented Python-level exception escaping
the `except` block (e.g. `UnboundLocalError`). -/
inductive RequestResult (α β : Type) where
  | ok (resp : α)
  | privateUser (users : List β)
  | userNotFound (users : List β)
  | requestError (last : AttemptOutcome α)
  | pythonError (kind : String)
deriving Repr, DecidableEq

/-- Python's `str.startswith`, modelled on the character lists of the two
strings. -/
def pyStartsWith (s p : String) : Bool :=
  p.data.isPrefixOf s.data

/-- Model of `[value for key, value in variables.items() if key.startswith(('username', 'id'))]`. -/
def usersInBatch {β : Type} (vars : List (String × β)) : List β :=
  (vars.filter (fun kv => pyStartsWith kv.1 "username" || pyStartsWith kv.1 "id")).map
    (fun kv => kv.2)

/-- The constant `max_retries = 10` of `_make_request`. -/
def max_retries : Nat := 10

/-- What the `except requests.exceptions.RequestException` block decides:
either raise a result immediately, or fall through to the backoff/retry
code, with the new values of the carried locals `response` and `data`. -/
inductive ExceptDecision (α β : Type) where
  | raise (r : RequestResult α β)
  | retry (respC : Option (Nat × Option JsonBody)) (dataC : Option JsonBody)

/-- Body of the `except` block of `_make_request`, up to (but excluding) the
backoff bookkeeping.  `respC`/`dataC` are the values of the locals
`response`/`data` before this iteration (carried over from previous
iterations, `none` = unbound). -/
def exceptStep {α β : Type} (vars : List (String × β)) (o : AttemptOutcome α)
    (respC : Option (Nat × Option JsonBody)) (dataC : Option JsonBody) :
    ExceptDecision α β :=
  -- `response = requests.post(...)` rebinds `response` only when a response
  -- object was produced (the `httpError` case); a `connError` leaves the
  -- stale binding in place.
  let respC' : Option (Nat × Option JsonBody) :=
    match o with
    | .httpError st body => some (st, body)
    | _ => respC
  match respC' with
  | none =>
    -- `if response.status_code == 404:` with `response` never assigned
    .raise (.pythonError "UnboundLocalError")
  | some (st, body) =>
    if st = 404 then
      -- `try: data = response.json() except json.JSONDecodeError: pass`
      let dataC' : Option JsonBody :=
        match body with
        | some j => some j
        | none => dataC
      match dataC' with
      | none =>
        -- `if 'errors' in data:` with `data` never assigned
        .raise (.pythonError "UnboundLocalError")
      | some j =>
        match j.errors with
        | none => .retry respC' dataC'
        | some [] =>
          -- `data['errors'][0]` on an empty list
          .raise (.pythonError "IndexError")
        | some (e0 :: _) =>
          if e0.message.getD "" = "Private User" then
            .raise (.privateUser (usersInBatch vars))
          else if e0.message.getD "" = "User not found" then
            .raise (.userNotFound (usersInBatch vars))
          else .retry respC' dataC'
    else .retry respC' dataC

/-- The retry loop of `_make_request`.  `out a` is the outcome of attempt
`a` (0-based), `fuel` is `max_retries - a`, `sleeps` accumulates the
`time.sleep(wait_time)` durations.  Returns (result, sleeps, number of
attempts actually made). -/
def makeRequestGo {α β : Type} (out : Nat → AttemptOutcome α) (vars : List (String × β)) :
    Nat → Nat → Option (Nat × Option JsonBody) → Option JsonBody → List Nat →
    RequestResult α β × List Nat × Nat
  | 0, a, _, _, sleeps =>
    -- line 102: `raise AnilistRequestError("Max retries ... reached")`;
    -- unreachable when started with fuel = max_retries
    (.requestError (out a), sleeps, a)
  | fuel + 1, a, respC, dataC, sleeps =>
    match out a with
    | .success r => (.ok r, sleeps, a + 1)
    | o =>
      match exceptStep vars o respC dataC with
      | .raise r => (r, sleeps, a + 1)
      | .retry respC' dataC' =>
        -- `wait_time = 60 * (attempt + 1)`
        if a < max_retries - 1 then
          makeRequestGo out vars fuel (a + 1) respC' dataC' (sleeps ++ [60 * (a + 1)])
        else
          -- `raise AnilistRequestError(... str(e)) from e`
          (.requestError o, sleeps, a + 1)

/-- Model of `AnilistAPI._make_request` as a function of the per-attempt upstream
outcomes and the query variables. -/
def make_request {α β : Type} (out : Nat → AttemptOutcome α) (vars : List (String × β)) :
    RequestResult α β × List Nat × Nat :=
  makeRequestGo out vars max_retries 0 none none []

/-- One-step unfolding of the retry loop (definitional). -/
theorem makeRequestGo_succ {α β : Type} (out : Nat → AttemptOutcome α)
    (vars : List (String × β)) (fuel a : Nat) (respC : Option (Nat × Option JsonBody))
    (dataC : Option JsonBody) (sleeps : List Nat) :
    makeRequestGo out vars (fuel + 1) a respC dataC sleeps =
      match out a with
      | .success r => (.ok r, sleeps, a + 1)
      | o =>
        match exceptStep vars o respC dataC with
        | .raise r => (r, sleeps, a + 1)
        | .retry respC' dataC' =>
          if a < max_retries - 1 then
            makeRequestGo out vars fuel (a + 1) respC' dataC' (sleeps ++ [60 * (a + 1)])
          else
            (.requestError o, sleeps, a + 1) := rfl

/-- An attempt outcome that the code sends to the backoff/retry branch:
an HTTP error whose status is not 404, or a 404 whose JSON body lacks the
`errors` key or whose first error message is neither `Private User` nor
`User not found`. -/
def Retryable {α : Type} : AttemptOutcome α → Prop
  | .httpError st body =>
      st ≠ 404 ∨
        ∃ j, body = some j ∧
          (j.errors = none ∨
            ∃ e0 es, j.errors = some (e0 :: es) ∧
              e0.message.getD "" ≠ "Private User" ∧
              e0.message.getD "" ≠ "User not found")
  | _ => False

theorem retryable_shape {α : Type} {o : AttemptOutcome α} (h : Retryable o) :
    ∃ st body, o = .httpError st body := by
  match o with
  | .httpError st body => exact ⟨st, body, rfl⟩
  | .success r => simp [Retryable] at h
  | .connError => simp [Retryable] at h

theorem exceptStep_retryable {α β : Type} (vars : List (String × β))
    {o : AttemptOutcome α} (h : Retryable o)
    (respC : Option (Nat × Option JsonBody)) (dataC : Option JsonBody) :
    ∃ rc dc, exceptStep vars o respC dataC = .retry rc dc := by
  match o with
  | .success r => exact absurd h (by simp [Retryable])
  | .connError => exact absurd h (by simp [Retryable])
  | .httpError st body =>
    by_cases h4 : st = 404
    · subst h4
      rcases h with h404 | ⟨j, hj, hb⟩
      · exact absurd rfl h404
      · subst hj
        rcases hb with he | ⟨e0, es, he, hm1, hm2⟩
        · exact ⟨some (404, some j), some j, by simp [exceptStep, he]⟩
        · exact ⟨some (404, some j), some j, by simp [exceptStep, he, hm1, hm2]⟩
    · exact ⟨some (st, body), dataC, by simp [exceptStep, h4]⟩

/-- If every attempt from `a` on fails retryably, the loop sleeps
`60*(a+1), ..., 60*9` seconds and ends raising `AnilistRequestError`
wrapping attempt 9's failure, after `max_retries = 10` attempts. -/
theorem makeRequestGo_allFail {α β : Type} (out : Nat → AttemptOutcome α)
    (vars : List (String × β)) :
    ∀ fuel a respC dataC sleeps, fuel + a = 10 → a ≤ 9 →
      (∀ b, b < 10 → Retryable (out b)) →
      makeRequestGo out vars fuel a respC dataC sleeps =
        (.requestError (out 9), sleeps ++ (List.range' (a + 1) (9 - a)).map (fun k => 60 * k),
          10) := by
  intro fuel
  induction fuel with
  | zero => intro a _ _ _ hfa ha _; omega
  | succ f ih =>
    intro a respC dataC sleeps hfa ha hall
    have hr : Retryable (out a) := hall a (by omega)
    obtain ⟨rc, dc, hstep⟩ := exceptStep_retryable vars hr respC dataC
    obtain ⟨st, body, ho⟩ := retryable_shape hr
    rw [ho] at hstep
    rw [makeRequestGo_succ, ho]
    simp only [hstep]
    by_cases hlt : a < max_retries - 1
    · rw [if_pos hlt]
      have h9 : 9 - a = (9 - (a + 1)) + 1 := by simp [max_retries] at hlt; omega
      rw [ih (a + 1) rc dc (sleeps ++ [60 * (a + 1)]) (by omega)
        (by simp [max_retries] at hlt; omega) hall]
      rw [h9, List.range'_succ]
      simp
    · have ha9 : a = 9 := by simp [max_retries] at hlt; omega
      subst ha9
      rw [if_neg hlt, ← ho]
      simp

/-- C2 (amended): for a run in which every attempt fails with a failure the
code routes to the retry branch, `_make_request` makes exactly 10 attempts,
sleeping `60 * k` seconds after the `k`-th failed attempt for `k = 1..9`
(60s, 120s, ..., 540s — the 600s value is computed after the 10th failure
but never slept), and then raises `AnilistRequestError` wrapping the last
underlying failure. -/
theorem C2_retry_backoff {α β : Type} (out : Nat → AttemptOutcome α)
    (vars : List (String × β)) (h : ∀ b, b < 10 → Retryable (out b)) :
    make_request out vars =
      (.requestError (out 9), [60, 120, 180, 240, 300, 360, 420, 480, 540], 10) := by
  have h10 := makeRequestGo_allFail out vars 10 0 none none [] rfl (by omega) h
  show makeRequestGo out vars 10 0 none none [] = _
  rw [h10]
  simp [List.range']

/-- Witness for C2: a run of ten straight HTTP 500 failures. -/
theorem C2_retry_backoff_witness :
    make_request (fun _ => AttemptOutcome.httpError (α := Unit) 500 none)
      ([] : List (String × Nat)) =
      (.requestError (.httpError 500 none),
        [60, 120, 180, 240, 300, 360, 420, 480, 540], 10) :=
  C2_retry_backoff _ _ (fun _ _ => Or.inl (by omega))

/-- Counterexample to C2 as stated: the claimed backoff list
`60s, 120s, ..., 600s` is wrong — in a run of ten straight failures only
nine sleeps happen (60s..540s) and a 600-second wait never occurs. -/
theorem C2_counterexample :
    (make_request (fun _ => AttemptOutcome.httpError (α := Unit) 500 none)
      ([] : List (String × Nat))).2.1 = [60, 120, 180, 240, 300, 360, 420, 480, 540] ∧
    ¬ (600 ∈ (make_request (fun _ => AttemptOutcome.httpError (α := Unit) 500 none)
      ([] : List (String × Nat))).2.1) := by decide

/-- C3: on a first-attempt HTTP 404 whose first GraphQL error message is
`Private User` (respectively `User not found`), `_make_request` raises
`AnilistPrivateUser` (respectively `AnilistUserNotFound`) after exactly one
attempt, with no backoff sleep, and the error names the values of every
variable whose name starts with `username` or `id`. -/
theorem C3_terminal_classification {α β : Type} (out : Nat → AttemptOutcome α)
    (vars : List (String × β)) (j : JsonBody) (e0 : GqlError) (es : List GqlError)
    (hout : out 0 = .httpError 404 (some j)) (herr : j.errors = some (e0 :: es)) :
    (e0.message.getD "" = "Private User" →
      make_request out vars = (.privateUser (usersInBatch vars), [], 1)) ∧
    (e0.message.getD "" = "User not found" →
      make_request out vars = (.userNotFound (usersInBatch vars), [], 1)) := by
  constructor <;> intro hm <;>
    · show makeRequestGo out vars (9 + 1) 0 none none [] = _
      rw [makeRequestGo_succ, hout]
      simp [exceptStep, herr, hm]

/-- Witness for C3: a batch of two usernames where the upstream reports
`Private User` — both batch members are named. -/
theorem C3_terminal_classification_witness :
    make_request (fun _ => AttemptOutcome.httpError (α := Unit) 404
        (some ⟨some [⟨some "Private User"⟩]⟩))
      [("username1", "alice"), ("username2", "bob")] =
      (.privateUser ["alice", "bob"], [], 1) := by
  rw [(C3_terminal_classification
      (fun _ => AttemptOutcome.httpError (α := Unit) 404
        (some ⟨some [⟨some "Private User"⟩]⟩))
      [("username1", "alice"), ("username2", "bob")]
      ⟨some [⟨some "Private User"⟩]⟩ ⟨some "Private User"⟩ [] rfl rfl).1 rfl]
  decide

/-- C4 (code bug): a first-attempt HTTP 404 whose body is not valid JSON is
*not* handled by the retry branch — the `except` block reads the local
`data` that was never assigned (the `json.JSONDecodeError` handler only
`pass`es), so an `UnboundLocalError` escapes `_make_request` after a single
attempt, contradicting the code's own comment and docstring. -/
theorem C4_unbound_local_escape :
    make_request (fun _ => AttemptOutcome.httpError (α := Unit) 404 none)
      [("id1", (7 : Int))] =
      (.pythonError "UnboundLocalError", [], 1) := by decide

/-! ## src/anilist_api.py : `fetchAnimeCompleters`

The upstream is modelled as a function `pages : Nat → Option PageData`
giving, for each page number, the payload `response['data'][f'p{page}']`
that a request for that page returns (`none` = null payload).  The
`while True` loop gets explicit fuel bounding the number of windows; the
second component of the result records the window-start pages of the
windows actually requested. -/

/-- One element of `mediaList`: `{userId, score(format: POINT_100)}`. -/
structure PageEntry where
  userId : Int
  score : Int
deriving Repr, DecidableEq

structure PageInfo where
  hasNextPage : Bool
deriving Repr, DecidableEq

/-- The payload of one aliased `Page` sub-query. -/
structure PageData where
  pageInfo : PageInfo
  mediaList : List PageEntry
deriving Repr, DecidableEq

/-- The inner loop over `page_data['mediaList']`:
`if entry['score'] > 0: yield entry['userId']`. -/
def pageYields : List PageEntry → List Int
  | [] => []
  | e :: es => if e.score > 0 then e.userId :: pageYields es else pageYields es

/-- The `for i in range(pages_per_query)` loop over one response window.
`ws` are the page numbers of the window still to process, `hnp` the current
value of `has_next_page`.  Returns (yielded user ids, final value of
`has_next_page`, pages actually processed with their payloads). -/
def processWindow (pages : Nat → Option PageData) :
    List Nat → Bool → List Int × Bool × List (Nat × PageData)
  | [], hnp => ([], hnp, [])
  | p :: rest, hnp =>
    match pages p with
    | none => ([], hnp, [])          -- `if page_data is None: break`
    | some pd =>
      if pd.pageInfo.hasNextPage then
        let r := processWindow pages rest pd.pageInfo.hasNextPage
        (pageYields pd.mediaList ++ r.1, r.2.1, (p, pd) :: r.2.2)
      else
        -- `has_next_page = ...; if not has_next_page: break`
        (pageYields pd.mediaList, pd.pageInfo.hasNextPage, [(p, pd)])

/-- The page numbers of one query window: `page + i` for
`i in range(pages_per_query)`. -/
def windowPages (ppq w : Nat) : List Nat :=
  (List.range ppq).map (fun i => w + i)

/-- One window of `fetchAnimeCompleters`, starting at page `w`, with
`has_next_page` initialised to `False`. -/
def windowProc (pages : Nat → Option PageData) (ppq w : Nat) :
    List Int × Bool × List (Nat × PageData) :=
  processWindow pages (windowPages ppq w) false

/-- The `while True` loop of `fetchAnimeCompleters` with explicit fuel.
Returns (yielded user ids, window-start pages requested). -/
def crawlGo (pages : Nat → Option PageData) (ppq : Nat) : Nat → Nat → List Int × List Nat
  | 0, _ => ([], [])
  | fuel + 1, w =>
    let r := windowProc pages ppq w
    if r.2.1 then
      -- `page += pages_per_query`
      let rest := crawlGo pages ppq fuel (w + ppq)
      (r.1 ++ rest.1, w :: rest.2)
    else (r.1, [w])

/-- Model of `AnilistAPI.fetchAnimeCompleters(mediaId, pages_per_query)`: the cursor
starts at page 1. -/
def fetchAnimeCompleters (pages : Nat → Option PageData) (ppq fuel : Nat) :
    List Int × List Nat :=
  crawlGo pages ppq fuel 1

/-- Structure of one window pass: the yields are the in-order concatenation
of the per-page yields of the processed pages; every processed page had a
payload; the final `has_next_page` is that of the last processed page (or
the initial value when no page was processed); the processed pages are an
initial segment of the window's page list. -/
theorem processWindow_spec (pages : Nat → Option PageData) :
    ∀ (ws : List Nat) (h : Bool),
      (processWindow pages ws h).1 =
        (processWindow pages ws h).2.2.flatMap (fun q => pageYields q.2.mediaList) ∧
      (∀ q ∈ (processWindow pages ws h).2.2, pages q.1 = some q.2) ∧
      (processWindow pages ws h).2.1 =
        (match (processWindow pages ws h).2.2.getLast? with
          | none => h
          | some q => q.2.pageInfo.hasNextPage) ∧
      ∃ j, (processWindow pages ws h).2.2.map (fun q => q.1) = ws.take j := by
  intro ws
  induction ws with
  | nil =>
    intro h
    refine ⟨rfl, by simp [processWindow], rfl, 0, rfl⟩
  | cons p rest ih =>
    intro h
    match hp : pages p with
    | none =>
      refine ⟨?_, ?_, ?_, 0, ?_⟩ <;> simp [processWindow, hp]
    | some pd =>
      by_cases hf : pd.pageInfo.hasNextPage
      · obtain ⟨e1, e2, e3, j, e4⟩ := ih pd.pageInfo.hasNextPage
        refine ⟨?_, ?_, ?_, j + 1, ?_⟩
        · simp only [processWindow, hp, if_pos hf]
          simp [e1]
        · simp only [processWindow, hp, if_pos hf]
          intro q hq
          rcases List.mem_cons.mp hq with hq | hq
          · subst hq; exact hp
          · exact e2 q hq
        · simp only [processWindow, hp, if_pos hf]
          match h22 : (processWindow pages rest pd.pageInfo.hasNextPage).2.2 with
          | [] =>
            rw [h22] at e3
            simpa using e3
          | q0 :: qs =>
            rw [h22] at e3
            rw [List.getLast?_cons_cons]
            simpa using e3
        · simp only [processWindow, hp, if_pos hf]
          simp only [List.map_cons, e4, List.take_succ_cons]
      · refine ⟨?_, ?_, ?_, 1, ?_⟩ <;>
          simp [processWindow, hp, if_neg hf]

/-- One-step unfolding of the crawl loop (definitional). -/
theorem crawlGo_succ (pages : Nat → Option PageData) (ppq fuel w : Nat) :
    crawlGo pages ppq (fuel + 1) w =
      if (windowProc pages ppq w).2.1 then
        ((windowProc pages ppq w).1 ++ (crawlGo pages ppq fuel (w + ppq)).1,
          w :: (crawlGo pages ppq fuel (w + ppq)).2)
      else ((windowProc pages ppq w).1, [w]) := rfl

/-- The requested-window list of a fuelled crawl always starts with the
window it was started at. -/
theorem crawlGo_head (pages : Nat → Option PageData) (ppq : Nat) (fuel w : Nat) :
    ∃ ys tl, crawlGo pages ppq (fuel + 1) w = (ys, w :: tl) := by
  by_cases hc : (windowProc pages ppq w).2.1
  · refine ⟨(windowProc pages ppq w).1 ++ (crawlGo pages ppq fuel (w + ppq)).1,
      (crawlGo pages ppq fuel (w + ppq)).2, ?_⟩
    simp only [crawlGo, if_pos hc]
  · refine ⟨(windowProc pages ppq w).1, [], ?_⟩
    simp only [crawlGo, if_neg hc]

theorem windowPages_two {ppq : Nat} (h2 : 2 ≤ ppq) (w : Nat) :
    ∃ tl, windowPages ppq w = w :: (w + 1) :: tl := by
  obtain ⟨k, rfl⟩ : ∃ k, ppq = k + 2 := ⟨ppq - 2, by omega⟩
  refine ⟨((List.range k).map (fun i => w + (i + 2))), ?_⟩
  simp only [windowPages, List.range_succ_eq_map, List.map_cons, List.map_map]
  simp [Function.comp_def, Nat.add_comm, Nat.add_assoc, Nat.add_left_comm]

theorem windowPages_cons {ppq : Nat} (h1 : 1 ≤ ppq) (w : Nat) :
    ∃ tl, windowPages ppq w = w :: tl := by
  obtain ⟨k, rfl⟩ : ∃ k, ppq = k + 1 := ⟨ppq - 1, by omega⟩
  refine ⟨(List.range k).map (fun i => w + (i + 1)), ?_⟩
  simp only [windowPages, List.range_succ_eq_map, List.map_cons, List.map_map]
  simp [Function.comp_def, Nat.add_comm, Nat.add_assoc, Nat.add_left_comm]

/-- C5 (amended): `fetchAnimeCompleters` processes each window's pages in
increasing page order (the processed pages are an initial segment of the
increasing window page list); it requests a further window only if the last
page actually processed reported `hasNextPage = true`; an absent (null)
payload at the *first* page of a window ends the crawl with no further
window requested; but an absent payload coming after a page that reported
`hasNextPage = true` does *not* end the crawl — the next window is still
requested. -/
theorem C5_pagination_control (pages : Nat → Option PageData) (ppq fuel w : Nat) :
    (∃ j, (windowProc pages ppq w).2.2.map (fun q => q.1) = (windowPages ppq w).take j) ∧
    (2 ≤ (crawlGo pages ppq (fuel + 1) w).2.length →
      ((windowProc pages ppq w).2.2.getLast?).map (fun q => q.2.pageInfo.hasNextPage) =
        some true) ∧
    (pages w = none → crawlGo pages ppq (fuel + 1) w = ([], [w])) ∧
    (∀ pd, pages w = some pd → pd.pageInfo.hasNextPage = true → pages (w + 1) = none →
      2 ≤ ppq → ∃ tl, (crawlGo pages ppq (fuel + 2) w).2 = w :: (w + ppq) :: tl) := by
  refine ⟨?_, ?_, ?_, ?_⟩
  · exact (processWindow_spec pages (windowPages ppq w) false).2.2.2
  · intro hlen
    by_cases hc : (windowProc pages ppq w).2.1
    · obtain ⟨_, _, e3, _⟩ := processWindow_spec pages (windowPages ppq w) false
      simp only [windowProc] at hc
      rw [hc] at e3
      match hL : (processWindow pages (windowPages ppq w) false).2.2.getLast? with
      | none =>
        rw [hL] at e3
        exact absurd (show (false : Bool) = true from e3.symm) (by simp)
      | some q =>
        rw [hL] at e3
        have e4 : q.2.pageInfo.hasNextPage = true := e3.symm
        simp [e4]
    · rw [crawlGo_succ, if_neg hc] at hlen
      change 2 ≤ 1 at hlen
      omega
  · intro hnone
    have hwp : windowProc pages ppq w = ([], false, []) := by
      rcases Nat.eq_zero_or_pos ppq with h0 | h1
      · subst h0; rfl
      · obtain ⟨tl, htl⟩ := windowPages_cons h1 w
        rw [windowProc, htl]
        simp [processWindow, hnone]
    rw [crawlGo_succ, hwp]
    simp
  · intro pd hpd hflag hnone h2
    obtain ⟨tl0, htl⟩ := windowPages_two h2 w
    have hwp : windowProc pages ppq w = (pageYields pd.mediaList, true, [(w, pd)]) := by
      rw [windowProc, htl]
      simp [processWindow, hpd, hflag, hnone]
    obtain ⟨ys, tl, hcrawl⟩ := crawlGo_head pages ppq fuel (w + ppq)
    refine ⟨tl, ?_⟩
    show (crawlGo pages ppq (fuel + 1 + 1) w).2 = _
    rw [crawlGo_succ, hwp]
    simp [hcrawl]

/-- The upstream of the C5 counterexample: page 1 has a payload reporting
`hasNextPage = true`, every other page (in particular page 2) is null. -/
def cexPages : Nat → Option PageData :=
  fun p => if p = 1 then some ⟨⟨true⟩, []⟩ else none

/-- Counterexample to C5 as stated: with window size 2, page 2's payload is
absent (null), yet the crawler does not terminate — it goes on to request
the next window starting at page 3 (requested window starts `[1, 3]`, not
`[1]`). -/
theorem C5_counterexample :
    cexPages 2 = none ∧ (fetchAnimeCompleters cexPages 2 3).2 = [1, 3] := by decide

/-- Witness for C5: a window whose first page payload is absent terminates
the crawl immediately. -/
theorem C5_pagination_control_witness :
    crawlGo cexPages 2 1 5 = ([], [5]) :=
  (C5_pagination_control cexPages 2 0 5).2.2.1 rfl

/-- C6: a processed page contributes exactly the userIds of its entries
with strictly positive score, in upstream order (a filter-then-map of its
`mediaList`), and every user id the crawler ever yields comes from an entry
of a returned page payload with strictly positive score — an entry with
score 0 is never yielded. -/
theorem C6_positive_scores :
    (∀ l : List PageEntry,
      pageYields l = (l.filter (fun e => 0 < e.score)).map (fun e => e.userId)) ∧
    (∀ (pages : Nat → Option PageData) (ppq fuel start : Nat) (u : Int),
      u ∈ (crawlGo pages ppq fuel start).1 →
      ∃ w pd e, pages w = some pd ∧ e ∈ pd.mediaList ∧ 0 < e.score ∧ e.userId = u) := by
  have hfil : ∀ l : List PageEntry,
      pageYields l = (l.filter (fun e => 0 < e.score)).map (fun e => e.userId) := by
    intro l
    induction l with
    | nil => rfl
    | cons e es ih => by_cases h : 0 < e.score <;> simp [pageYields, h, ih]
  have hmem : ∀ (l : List PageEntry) (u : Int), u ∈ pageYields l →
      ∃ e ∈ l, 0 < e.score ∧ e.userId = u := by
    intro l u hu
    rw [hfil] at hu
    obtain ⟨e, he, rfl⟩ := List.mem_map.mp hu
    obtain ⟨hel, hsc⟩ := List.mem_filter.mp he
    exact ⟨e, hel, by simpa using hsc, rfl⟩
  have hwin : ∀ (pages : Nat → Option PageData) (ppq start : Nat) (u : Int),
      u ∈ (windowProc pages ppq start).1 →
      ∃ w pd e, pages w = some pd ∧ e ∈ pd.mediaList ∧ 0 < e.score ∧ e.userId = u := by
    intro pages ppq start u hu
    obtain ⟨e1, e2, _, _⟩ := processWindow_spec pages (windowPages ppq start) false
    simp only [windowProc] at hu
    rw [e1] at hu
    obtain ⟨q, hq, hql⟩ := List.mem_flatMap.mp hu
    obtain ⟨e, hel, hsc, rfl⟩ := hmem _ _ hql
    exact ⟨q.1, q.2, e, e2 q hq, hel, hsc, rfl⟩
  refine ⟨hfil, ?_⟩
  intro pages ppq fuel
  induction fuel with
  | zero => intro start u hu; simp [crawlGo] at hu
  | succ f ih =>
    intro start u hu
    by_cases hc : (windowProc pages ppq start).2.1
    · simp only [crawlGo] at hu
      rw [if_pos hc] at hu
      rcases List.mem_append.mp hu with hu | hu
      · exact hwin pages ppq start u hu
      · exact ih (start + ppq) u hu
    · simp only [crawlGo] at hu
      rw [if_neg hc] at hu
      exact hwin pages ppq start u hu

/-- Witness for C6: the yielded user 10 of a one-page crawl is traced back
to a positive-score entry; the 0-scored entry for user 12 is not yielded. -/
theorem C6_positive_scores_witness :
    (∃ w pd e,
      (fun p => if p = 1 then some (⟨⟨false⟩, [⟨10, 80⟩, ⟨12, 0⟩]⟩ : PageData) else none) w =
        some pd ∧ e ∈ pd.mediaList ∧ 0 < e.score ∧ e.userId = 10) ∧
    pageYields [⟨10, 80⟩, ⟨12, 0⟩] = [10] :=
  ⟨C6_positive_scores.2
      (fun p => if p = 1 then some (⟨⟨false⟩, [⟨10, 80⟩, ⟨12, 0⟩]⟩ : PageData) else none)
      1 1 1 10 (by decide),
    by rw [C6_positive_scores.1 [⟨10, 80⟩, ⟨12, 0⟩]]; decide⟩

/-! ## src/anilist_api.py : `fetchCompletedAnime` (decode part)

The decode loop runs over `response['data'][f'u{i}']` for
`i, user in enumerate(users, 1)`; the upstream response is modelled as
`data : Nat → Option UserData` giving the payload of alias `u{i}`. -/

structure MediaTitle where
  romaji : String
deriving Repr, DecidableEq

structure Media where
  title : MediaTitle
deriving Repr, DecidableEq

/-- One raw entry of the `MLG` fragment:
`{mediaId, media { title { romaji } }, score(format: POINT_100)}`. -/
structure RawEntry where
  mediaId : Int
  media : Media
  score : Int
deriving Repr, DecidableEq

/-- The record `AnimeEntry = namedtuple('AnimeEntry', ['mediaId', 'title_romaji', 'score'])`. -/
structure AnimeEntry where
  mediaId : Int
  title_romaji : String
  score : Int
deriving Repr, DecidableEq

structure MediaListGroup where
  entries : List RawEntry
deriving Repr, DecidableEq

/-- The payload of one aliased `u{i}` sub-query: its `lists` array. -/
structure UserData where
  lists : List MediaListGroup
deriving Repr, DecidableEq

/-- The nested `for list_entry in user_data['lists']: for entry in
list_entry['entries']: entries.append(AnimeEntry(...))` loop. -/
def decodeUserEntries (ud : UserData) : List AnimeEntry :=
  ud.lists.flatMap (fun lg => lg.entries.map (fun e =>
    { mediaId := e.mediaId, title_romaji := e.media.title.romaji, score := e.score }))

/-- The decode loop of `fetchCompletedAnime`: a null alias payload skips
the user (warn + `continue`), otherwise `result[user] = entries`.  `i0` is
the alias index of the first user of `us`. -/
def decodeCompletedGo {α : Type} (data : Nat → Option UserData) :
    List α → Nat → List (α × List AnimeEntry)
  | [], _ => []
  | u :: rest, i0 =>
    match data i0 with
    | none => decodeCompletedGo data rest (i0 + 1)
    | some ud => (u, decodeUserEntries ud) :: decodeCompletedGo data rest (i0 + 1)

/-- The result mapping of `AnilistAPI.fetchCompletedAnime` for user list
`users`, where `data i` is the payload of alias `u{i}` (aliases start
at 1). -/
def fetchCompletedAnime {α : Type} (users : List α) (data : Nat → Option UserData) :
    List (α × List AnimeEntry) :=
  decodeCompletedGo data users 1

theorem decodeCompletedGo_mem_keys {α : Type} (data : Nat → Option UserData) :
    ∀ (us : List α) (i0 : Nat) (u : α),
      u ∈ (decodeCompletedGo data us i0).map (fun p => p.1) →
      ∃ j, ∃ h : j < us.length, us.get ⟨j, h⟩ = u ∧ data (i0 + j) ≠ none := by
  intro us
  induction us with
  | nil => intro i0 u hu; simp [decodeCompletedGo] at hu
  | cons v rest ih =>
    intro i0 u hu
    match hd : data i0 with
    | none =>
      simp only [decodeCompletedGo, hd] at hu
      obtain ⟨j, hj, hget, hne⟩ := ih (i0 + 1) u hu
      refine ⟨j + 1, by simpa using Nat.succ_lt_succ hj, by simpa using hget, ?_⟩
      rw [show i0 + (j + 1) = (i0 + 1) + j by omega]
      exact hne
    | some ud =>
      simp only [decodeCompletedGo, hd, List.map_cons, List.mem_cons] at hu
      rcases hu with rfl | hu
      · exact ⟨0, by simp, rfl, by simp [hd]⟩
      · obtain ⟨j, hj, hget, hne⟩ := ih (i0 + 1) u hu
        refine ⟨j + 1, by simpa using Nat.succ_lt_succ hj, by simpa using hget, ?_⟩
        rw [show i0 + (j + 1) = (i0 + 1) + j by omega]
        exact hne

theorem decodeCompletedGo_mem_of_some {α : Type} (data : Nat → Option UserData) :
    ∀ (us : List α) (i0 j : Nat) (h : j < us.length) (ud : UserData),
      data (i0 + j) = some ud →
      (us.get ⟨j, h⟩, decodeUserEntries ud) ∈ decodeCompletedGo data us i0 := by
  intro us
  induction us with
  | nil => intro i0 j h; simp at h
  | cons v rest ih =>
    intro i0 j h ud hd
    match j with
    | 0 =>
      rw [Nat.add_zero] at hd
      simp [decodeCompletedGo, hd]
    | j' + 1 =>
      rw [show i0 + (j' + 1) = (i0 + 1) + j' by omega] at hd
      have hmem := ih (i0 + 1) j' (by simpa using Nat.lt_of_succ_lt_succ (by simpa using h)) ud hd
      match hdi : data i0 with
      | none =>
        simp only [decodeCompletedGo, hdi]
        simpa using hmem
      | some ud0 =>
        simp only [decodeCompletedGo, hdi, List.mem_cons]
        right
        simpa using hmem

/-- C7: in the decode loop of `fetchCompletedAnime`, a user whose aliased
payload `u{i}` is null is skipped — the returned mapping has no entry for
them — while every user whose payload is present is decoded normally; the
decode is a total function, so no Private/NotFound error can arise at
decode time. -/
theorem C7_null_alias_skipped {α : Type} (users : List α) (data : Nat → Option UserData) :
    (∀ i (h : i < users.length), data (i + 1) = none → users.Nodup →
      users.get ⟨i, h⟩ ∉ (fetchCompletedAnime users data).map (fun p => p.1)) ∧
    (∀ i (h : i < users.length) (ud : UserData), data (i + 1) = some ud →
      (users.get ⟨i, h⟩, decodeUserEntries ud) ∈ fetchCompletedAnime users data) := by
  constructor
  · intro i h hnone hnd hmem
    obtain ⟨j, hj, hget, hne⟩ := decodeCompletedGo_mem_keys data users 1 _ hmem
    have hfin : (⟨j, hj⟩ : Fin users.length) = ⟨i, h⟩ :=
      (List.Nodup.get_inj_iff hnd).mp hget
    have hji : j = i := by simpa using hfin
    subst hji
    rw [Nat.add_comm] at hne
    exact hne hnone
  · intro i h ud hd
    have hd' : data (1 + i) = some ud := by rw [Nat.add_comm]; exact hd
    exact decodeCompletedGo_mem_of_some data users 1 i h ud hd'

/-- The per-user payload used by the C7 witness. -/
def udW : UserData := ⟨[⟨[⟨5, ⟨⟨"T"⟩⟩, 0⟩]⟩]⟩

/-- The batch response used by the C7 witness: alias `u1` null, alias `u2`
present. -/
def dataW : Nat → Option UserData := fun i => if i = 2 then some udW else none

/-- Witness for C7: in a 2-user batch whose first alias is null, user `"a"`
is absent from the result and user `"b"` is decoded. -/
theorem C7_null_alias_skipped_witness :
    ("a" ∉ (fetchCompletedAnime ["a", "b"] dataW).map (fun p => p.1)) ∧
    (("b", decodeUserEntries udW) ∈ fetchCompletedAnime ["a", "b"] dataW) :=
  ⟨(C7_null_alias_skipped ["a", "b"] dataW).1 0 (by decide) (by decide) (by decide),
    (C7_null_alias_skipped ["a", "b"] dataW).2 1 (by decide) udW (by decide)⟩

/-! ## src/collect_userdata.py : checkpoint save/load

`save_checkpoint` serialises `{'ratings': dict(ratings),
'remaining_users': remaining_users, 'last_batch': last_batch}` with
`json.dump`; `load_checkpoint` reads the three keys back with `json.load`.
The file layer is modelled at the level of JSON documents. -/

/-- RatingsTable: mediaId string → ordered list of single-key
`{userId string: score}` mappings, in dict insertion order. -/
abbrev Ratings := List (String × List (String × Int))

/-- JSON documents (integers suffice for the numbers of the checkpoint
schema). -/
inductive Json where
  | null
  | num (n : Int)
  | str (s : String)
  | arr (xs : List Json)
  | obj (kvs : List (String × Json))
deriving Repr

/-- CheckpointState: the `(ratings, remaining_users, last_batch)` triple in
the defined schema. -/
structure Checkpoint where
  ratings : Ratings
  remaining_users : List Int
  last_batch : Int
deriving Repr, DecidableEq

/-- Model of `save_checkpoint`: the JSON document written by `json.dump`. -/
def save_checkpoint (c : Checkpoint) : Json :=
  .obj [("ratings",
          .obj (c.ratings.map (fun p =>
            (p.1, .arr (p.2.map (fun us => Json.obj [(us.1, .num us.2)])))))),
        ("remaining_users", .arr (c.remaining_users.map (fun u => Json.num u))),
        ("last_batch", .num c.last_batch)]

/-- Key access on a decoded JSON object (`checkpoint_data['ratings']`
etc.). -/
def jLookup (k : String) : List (String × Json) → Option Json
  | [] => none
  | p :: rest => if p.1 = k then some p.2 else jLookup k rest

/-- Reads a list where every element must decode. -/
def decodeList {σ γ : Type} (g : σ → Option γ) : List σ → Option (List γ)
  | [] => some []
  | x :: xs =>
    match g x, decodeList g xs with
    | some y, some ys => some (y :: ys)
    | _, _ => none

/-- One `{<userId string>: <score int>}` singleton mapping. -/
def decodeScorePair : Json → Option (String × Int)
  | .obj [(u, .num s)] => some (u, s)
  | _ => none

/-- One `<mediaId string>: [{...}, ...]` entry of the `ratings` object. -/
def decodeRatingsEntry : String × Json → Option (String × List (String × Int))
  | (k, .arr xs) => (decodeList decodeScorePair xs).map (fun l => (k, l))
  | _ => none

def decodeRatings : Json → Option Ratings
  | .obj kvs => decodeList decodeRatingsEntry kvs
  | _ => none

def decodeUserId : Json → Option Int
  | .num u => some u
  | _ => none

/-- Model of `load_checkpoint`: reads the triple back from the JSON document. -/
def load_checkpoint (j : Json) : Option Checkpoint :=
  match j with
  | .obj kvs =>
    match jLookup "ratings" kvs, jLookup "remaining_users" kvs,
        jLookup "last_batch" kvs with
    | some jr, some (.arr jus), some (.num lb) =>
      match decodeRatings jr, decodeList decodeUserId jus with
      | some r, some us => some ⟨r, us, lb⟩
      | _, _ => none
    | _, _, _ => none
  | _ => none

theorem decodeList_inverse {σ γ : Type} (g : σ → Option γ) (enc : γ → σ) :
    ∀ l : List γ, (∀ x ∈ l, g (enc x) = some x) →
      decodeList g (l.map enc) = some l := by
  intro l
  induction l with
  | nil => intro _; rfl
  | cons x xs ih =>
    intro h
    simp only [List.map_cons, decodeList, h x (by simp),
      ih (fun y hy => h y (by simp [hy]))]

/-- C9: saving a checkpoint triple of the defined schema and loading it
back yields exactly the triple that was saved. -/
theorem C9_checkpoint_roundtrip (c : Checkpoint) :
    load_checkpoint (save_checkpoint c) = some c := by
  have hscore : ∀ l : List (String × Int),
      decodeList decodeScorePair (l.map (fun us => Json.obj [(us.1, .num us.2)])) =
        some l :=
    fun l => decodeList_inverse _ _ l (fun x _ => rfl)
  have hentry : decodeList decodeRatingsEntry
      (c.ratings.map (fun p =>
        (p.1, Json.arr (p.2.map (fun us => Json.obj [(us.1, .num us.2)]))))) =
      some c.ratings :=
    decodeList_inverse _ _ c.ratings (fun p _ => by
      simp only [decodeRatingsEntry, hscore p.2, Option.map_some'])
  have husers : decodeList decodeUserId (c.remaining_users.map (fun u => Json.num u)) =
      some c.remaining_users :=
    decodeList_inverse _ _ c.remaining_users (fun x _ => rfl)
  simp [save_checkpoint, load_checkpoint, jLookup, decodeRatings, hentry, husers]

/-! ## src/collect_userdata.py : `fetch_and_store_ratings` and `main`

The per-batch upstream behaviour is modelled by `out : Nat → BatchOutcome`
(how the `fetchCompletedAnime` call for batch number `b` ends) and
`resp : Int → Option (List AnimeEntry)` (the decoded entry list per user
in a successful batch; `none` = aliased payload null, user skipped). -/

/-- Model of `ratings[str(anime.mediaId)].append({str(user_id): anime.score})` with
`ratings = defaultdict(list)`: append to an existing key's list in place,
or insert a new key at the end. -/
def dictAppend (r : Ratings) (k : String) (v : String × Int) : Ratings :=
  if r.any (fun p => p.1 == k) then
    r.map (fun p => if p.1 == k then (p.1, p.2 ++ [v]) else p)
  else r ++ [(k, [v])]

/-- The inner `for anime in user_anime` loop for one user. -/
def foldUser (r : Ratings) (u : Int) (l : List AnimeEntry) : Ratings :=
  l.foldl (fun acc a => dictAppend acc (toString a.mediaId) (toString u, a.score)) r

/-- The `for user_id, user_anime in batch_anime.items()` loop. -/
def foldBatch (r : Ratings) (ba : List (Int × List AnimeEntry)) : Ratings :=
  ba.foldl (fun acc p => foldUser acc p.1 p.2) r

/-- Python dict key order: first-occurrence order (`seen` accumulates the
keys already inserted). -/
def pyDictKeysGo {α : Type} [DecidableEq α] : List α → List α → List α
  | [], _ => []
  | u :: rest, seen =>
    if u ∈ seen then pyDictKeysGo rest seen else u :: pyDictKeysGo rest (u :: seen)

/-- The `{user: entries}` mapping `fetchCompletedAnime(userids=batch)`
returns for one batch, keyed in dict insertion order. -/
def batchAnime (batch : List Int) (resp : Int → Option (List AnimeEntry)) :
    List (Int × List AnimeEntry) :=
  (pyDictKeysGo batch []).filterMap (fun u => (resp u).map (fun l => (u, l)))

/-- How the `fetchCompletedAnime` call of one batch ends, as seen by the
`try/except` of `fetch_and_store_ratings`. -/
inductive BatchOutcome where
  | ok
  | privateOrNotFound
  | reqError
  | uncaught
deriving Repr, DecidableEq

/-- One yielded checkpoint triple
`(dict(ratings), remaining_users, batch_num)`. -/
structure Chk where
  ratings : Ratings
  remaining : List Int
  lastBatch : Nat
deriving Repr, DecidableEq

/-- The count `total_batches = math.ceil(len(user_ids) / batch_size)`. -/
def totalBatches (n bs : Nat) : Nat := (n + bs - 1) / bs

/-- The `for batch_num in range(total_batches)` loop of
`fetch_and_store_ratings`.  Returns the yielded checkpoints and whether an
exception not caught by the `except` clauses escaped the generator
(`AnilistPrivateUser`/`AnilistUserNotFound` → log + `continue`,
`AnilistRequestError` → log + `return`, anything else propagates). -/
def pipelineGo (uids : List Int) (bs : Nat) (out : Nat → BatchOutcome)
    (resp : Int → Option (List AnimeEntry)) (total : Nat) :
    Nat → Nat → Ratings → List Chk × Bool
  | 0, _, _ => ([], false)
  | fuel + 1, b, r =>
    match out b with
    | .uncaught => ([], true)
    | .reqError => ([], false)
    | .privateOrNotFound => pipelineGo uids bs out resp total fuel (b + 1) r
    | .ok =>
      -- `batch = user_ids[start_idx:end_idx]`
      let r' := foldBatch r (batchAnime ((uids.drop (b * bs)).take bs) resp)
      let rest := pipelineGo uids bs out resp total fuel (b + 1) r'
      if (b + 1) % 20 = 0 ∨ b = total - 1 then
        (⟨r', uids.drop ((b + 1) * bs), b⟩ :: rest.1, rest.2)
      else rest

/-- Model of `fetch_and_store_ratings(user_ids, api, batch_size)`. -/
def fetch_and_store_ratings (uids : List Int) (bs : Nat) (out : Nat → BatchOutcome)
    (resp : Int → Option (List AnimeEntry)) : List Chk × Bool :=
  pipelineGo uids bs out resp (totalBatches uids.length bs)
    (totalBatches uids.length bs) 0 []

/-- One-step unfolding of the batch loop (definitional). -/
theorem pipelineGo_succ (uids : List Int) (bs : Nat) (out : Nat → BatchOutcome)
    (resp : Int → Option (List AnimeEntry)) (total fuel b : Nat) (r : Ratings) :
    pipelineGo uids bs out resp total (fuel + 1) b r =
      match out b with
      | .uncaught => ([], true)
      | .reqError => ([], false)
      | .privateOrNotFound => pipelineGo uids bs out resp total fuel (b + 1) r
      | .ok =>
        let r' := foldBatch r (batchAnime ((uids.drop (b * bs)).take bs) resp)
        let rest := pipelineGo uids bs out resp total fuel (b + 1) r'
        if (b + 1) % 20 = 0 ∨ b = total - 1 then
          (⟨r', uids.drop ((b + 1) * bs), b⟩ :: rest.1, rest.2)
        else rest := rfl

/-- Model of `ratings.update(updated_ratings)` on Python dicts: existing keys take
the new value in place, new keys are appended in order. -/
def dictUpdate (d1 d2 : Ratings) : Ratings :=
  d1.map (fun p =>
    match d2.find? (fun q => q.1 == p.1) with
    | some q => (p.1, q.2)
    | none => p) ++
  d2.filter (fun q => !(d1.any (fun p => p.1 == q.1)))

/-- Observable outcome of one `main` run: checkpoints saved, final ratings,
whether `save_results` ran, and the process exit code. -/
structure RunResult where
  saved : List Chk
  finalRatings : Ratings
  resultWritten : Bool
  exitCode : Nat
deriving Repr, DecidableEq

/-- Model of `main` on a fresh run (`--userid-list`: initial ratings empty,
`last_batch = -1`), with or without `--checkpoint-file`.  An exception
escaping the generator aborts `main` before `save_results`, and the Python
process exits non-zero; otherwise the for-loop drains the generator, the
result file is written and the process exits 0. -/
def main_run (uids : List Int) (bs : Nat) (out : Nat → BatchOutcome)
    (resp : Int → Option (List AnimeEntry)) (checkpointing : Bool) : RunResult :=
  let res := fetch_and_store_ratings uids bs out resp
  { saved := if checkpointing then res.1 else []
    finalRatings := res.1.foldl (fun acc y => dictUpdate acc y.ratings) []
    resultWritten := !res.2
    exitCode := if res.2 then 1 else 0 }

/-- All user-id strings appearing in a ratings table. -/
def ratingsUserKeys (r : Ratings) : List String :=
  r.flatMap (fun p => p.2.map (fun us => us.1))

theorem ratingsUserKeys_dictAppend (r : Ratings) (k : String) (v : String × Int) :
    ∀ s ∈ ratingsUserKeys (dictAppend r k v), s ∈ ratingsUserKeys r ∨ s = v.1 := by
  intro s hs
  unfold dictAppend at hs
  by_cases hany : r.any (fun p => p.1 == k)
  · rw [if_pos hany] at hs
    simp only [ratingsUserKeys, List.mem_flatMap] at hs ⊢
    obtain ⟨p, hp, hsp⟩ := hs
    obtain ⟨p0, hp0, rfl⟩ := List.mem_map.mp hp
    by_cases he : p0.1 == k
    · rw [if_pos he] at hsp
      simp only [List.map_append, List.mem_append] at hsp
      rcases hsp with hsp | hsp
      · exact Or.inl ⟨p0, hp0, hsp⟩
      · simp only [List.map_cons, List.map_nil, List.mem_singleton] at hsp
        exact Or.inr hsp
    · rw [if_neg he] at hsp
      exact Or.inl ⟨p0, hp0, hsp⟩
  · rw [if_neg hany] at hs
    simp only [ratingsUserKeys, List.mem_flatMap] at hs ⊢
    obtain ⟨p, hp, hsp⟩ := hs
    rcases List.mem_append.mp hp with hp | hp
    · exact Or.inl ⟨p, hp, hsp⟩
    · simp only [List.mem_singleton] at hp
      subst hp
      simp only [List.map_cons, List.map_nil, List.mem_singleton] at hsp
      exact Or.inr hsp

theorem ratingsUserKeys_foldUser (u : Int) :
    ∀ (l : List AnimeEntry) (r : Ratings) (s : String),
      s ∈ ratingsUserKeys (foldUser r u l) → s ∈ ratingsUserKeys r ∨ s = toString u := by
  intro l
  induction l with
  | nil => exact fun r s hs => Or.inl hs
  | cons a l ih =>
    intro r s hs
    have hs' : s ∈ ratingsUserKeys
        (foldUser (dictAppend r (toString a.mediaId) (toString u, a.score)) u l) := hs
    rcases ih _ s hs' with h | h
    · rcases ratingsUserKeys_dictAppend _ _ _ s h with h' | h'
      · exact Or.inl h'
      · exact Or.inr h'
    · exact Or.inr h

theorem ratingsUserKeys_foldBatch :
    ∀ (ba : List (Int × List AnimeEntry)) (r : Ratings) (s : String),
      s ∈ ratingsUserKeys (foldBatch r ba) →
      s ∈ ratingsUserKeys r ∨ ∃ u, u ∈ ba.map (fun p => p.1) ∧ s = toString u := by
  intro ba
  induction ba with
  | nil => exact fun r s hs => Or.inl hs
  | cons p ba ih =>
    intro r s hs
    have hs' : s ∈ ratingsUserKeys (foldBatch (foldUser r p.1 p.2) ba) := hs
    rcases ih _ s hs' with h | ⟨u, hu, hsu⟩
    · rcases ratingsUserKeys_foldUser p.1 p.2 r s h with h' | h'
      · exact Or.inl h'
      · exact Or.inr ⟨p.1, by simp, h'⟩
    · exact Or.inr ⟨u, by simp [hu], hsu⟩

theorem pyDictKeysGo_subset {α : Type} [DecidableEq α] :
    ∀ (l seen : List α) (u : α), u ∈ pyDictKeysGo l seen → u ∈ l := by
  intro l
  induction l with
  | nil => intro seen u hu; simp [pyDictKeysGo] at hu
  | cons v l ih =>
    intro seen u hu
    by_cases hv : v ∈ seen
    · simp only [pyDictKeysGo, if_pos hv] at hu
      exact List.mem_cons_of_mem v (ih seen u hu)
    · simp only [pyDictKeysGo, if_neg hv, List.mem_cons] at hu
      rcases hu with rfl | hu
      · exact List.mem_cons_self u l
      · exact List.mem_cons_of_mem v (ih (v :: seen) u hu)

theorem batchAnime_users_subset (batch : List Int) (resp : Int → Option (List AnimeEntry)) :
    ∀ u ∈ (batchAnime batch resp).map (fun p => p.1), u ∈ batch := by
  intro u hu
  simp only [batchAnime] at hu
  obtain ⟨p, hp, rfl⟩ := List.mem_map.mp hu
  obtain ⟨v, hv, hvp⟩ := List.mem_filterMap.mp hp
  cases hresp : resp v with
  | none => rw [hresp] at hvp; simp at hvp
  | some l =>
    rw [hresp] at hvp
    simp only [Option.map_some', Option.some_inj] at hvp
    subst hvp
    exact pyDictKeysGo_subset batch [] v hv

theorem take_subset_take {α : Type} (l : List α) {m n : Nat} (h : m ≤ n) :
    l.take m ⊆ l.take n := by
  intro x hx
  have h2 : l.take m = (l.take n).take m := by
    rw [List.take_take, min_eq_left h]
  rw [h2] at hx
  exact List.take_subset m (l.take n) hx

/-- Invariant of the batch loop: every yielded checkpoint's `remaining` is
the suffix of the input after its last batch, and every user key in its
ratings is the rendering of a user occurring in the processed prefix. -/
theorem pipelineGo_yields (uids : List Int) (bs : Nat) (out : Nat → BatchOutcome)
    (resp : Int → Option (List AnimeEntry)) (total : Nat) :
    ∀ fuel b r,
      (∀ s, s ∈ ratingsUserKeys r → ∃ v, v ∈ uids.take (b * bs) ∧ s = toString v) →
      ∀ y ∈ (pipelineGo uids bs out resp total fuel b r).1,
        b ≤ y.lastBatch ∧
        y.remaining = uids.drop ((y.lastBatch + 1) * bs) ∧
        (∀ s, s ∈ ratingsUserKeys y.ratings →
          ∃ v, v ∈ uids.take ((y.lastBatch + 1) * bs) ∧ s = toString v) := by
  intro fuel
  induction fuel with
  | zero => intro b r _ y hy; simp [pipelineGo] at hy
  | succ f ih =>
    intro b r hinv y hy
    have hmono : ∀ s, s ∈ ratingsUserKeys r →
        ∃ v, v ∈ uids.take ((b + 1) * bs) ∧ s = toString v := by
      intro s hs
      obtain ⟨v, hv, hsv⟩ := hinv s hs
      exact ⟨v, take_subset_take uids (by exact Nat.mul_le_mul_right bs (by omega)) hv, hsv⟩
    match hob : out b with
    | .uncaught => simp only [pipelineGo_succ, hob] at hy; simp at hy
    | .reqError => simp only [pipelineGo_succ, hob] at hy; simp at hy
    | .privateOrNotFound =>
      simp only [pipelineGo_succ, hob] at hy
      obtain ⟨h1, h2, h3⟩ := ih (b + 1) r hmono y hy
      exact ⟨by omega, h2, h3⟩
    | .ok =>
      simp only [pipelineGo_succ, hob] at hy
      have hinv' : ∀ s,
          s ∈ ratingsUserKeys (foldBatch r (batchAnime ((uids.drop (b * bs)).take bs) resp)) →
          ∃ v, v ∈ uids.take ((b + 1) * bs) ∧ s = toString v := by
        intro s hs
        rcases ratingsUserKeys_foldBatch _ r s hs with h | ⟨u, hu, hsu⟩
        · exact hmono s h
        · have hub : u ∈ (uids.drop (b * bs)).take bs :=
            batchAnime_users_subset _ _ u hu
          refine ⟨u, ?_, hsu⟩
          rw [show (b + 1) * bs = b * bs + bs by ring, List.take_add]
          exact List.mem_append.mpr (Or.inr hub)
      by_cases hcp : (b + 1) % 20 = 0 ∨ b = total - 1
      · rw [if_pos hcp] at hy
        rcases List.mem_cons.mp hy with rfl | hy
        · exact ⟨Nat.le_refl b, rfl, hinv'⟩
        · obtain ⟨h1, h2, h3⟩ := ih (b + 1) _ hinv' y hy
          exact ⟨by omega, h2, h3⟩
      · rw [if_neg hcp] at hy
        obtain ⟨h1, h2, h3⟩ := ih (b + 1) _ hinv' y hy
        exact ⟨by omega, h2, h3⟩

/-- C8 (amended): every checkpoint triple the batch pipeline yields has
`remaining` equal to the suffix of the input list after the last processed
batch; and, provided the input user-id list has no duplicates, every user
id string folded into the yielded ratings is the rendering of some user of
the processed prefix, which does not occur in `remaining`. -/
theorem C8_checkpoint_invariant (uids : List Int) (bs : Nat)
    (out : Nat → BatchOutcome) (resp : Int → Option (List AnimeEntry)) :
    ∀ y ∈ (fetch_and_store_ratings uids bs out resp).1,
      y.remaining = uids.drop ((y.lastBatch + 1) * bs) ∧
      (uids.Nodup → ∀ s ∈ ratingsUserKeys y.ratings,
        ∃ v, v ∈ uids.take ((y.lastBatch + 1) * bs) ∧ s = toString v ∧
          v ∉ y.remaining) := by
  intro y hy
  have h0 : ∀ s, s ∈ ratingsUserKeys ([] : Ratings) →
      ∃ v, v ∈ uids.take (0 * bs) ∧ s = toString v := by
    intro s hs
    simp [ratingsUserKeys] at hs
  obtain ⟨_, h2, h3⟩ := pipelineGo_yields uids bs out resp _ _ 0 [] h0 y hy
  refine ⟨h2, ?_⟩
  intro hnd s hs
  obtain ⟨v, hv, hsv⟩ := h3 s hs
  refine ⟨v, hv, hsv, ?_⟩
  rw [h2]
  exact fun hvd => (List.disjoint_take_drop hnd (Nat.le_refl _)) hv hvd

/-- Input of the C8 counterexample: user id 0 occurs at position 0 and
again at position 20. -/
def cexUids : List Int := ((List.range 20).map (fun n => (n : Int))) ++ [0]

/-- Per-user upstream payload used in pipeline examples: one completed
anime with mediaId 1 and score 50. -/
def cexResp : Int → Option (List AnimeEntry) := fun _ => some [⟨1, "A", 50⟩]

/-- Counterexample to C8 as stated: with batch size 1 and a duplicated user
id, the checkpoint yielded after batch 20 has user 0 already folded into
the ratings (key "0" present) while 0 still occurs in `remaining`. -/
theorem C8_counterexample :
    ((fetch_and_store_ratings cexUids 1 (fun _ => BatchOutcome.ok) cexResp).1.getD 0
      ⟨[], [], 0⟩).lastBatch = 19 ∧
    (0 : Int) ∈ ((fetch_and_store_ratings cexUids 1 (fun _ => BatchOutcome.ok)
      cexResp).1.getD 0 ⟨[], [], 0⟩).remaining ∧
    toString (0 : Int) ∈ ratingsUserKeys
      ((fetch_and_store_ratings cexUids 1 (fun _ => BatchOutcome.ok) cexResp).1.getD 0
        ⟨[], [], 0⟩).ratings := by decide

/-- Witness for C8: a duplicate-free 2-user run; the final checkpoint's
ratings key "2" traces to user 2, which is not among the remaining
users. -/
theorem C8_checkpoint_invariant_witness :
    ∃ v, v ∈ ([2, 3] : List Int).take
        ((((fetch_and_store_ratings [2, 3] 1 (fun _ => BatchOutcome.ok) cexResp).1.getD 0
          ⟨[], [], 0⟩).lastBatch + 1) * 1) ∧
      "2" = toString v ∧
      v ∉ ((fetch_and_store_ratings [2, 3] 1 (fun _ => BatchOutcome.ok) cexResp).1.getD 0
        ⟨[], [], 0⟩).remaining :=
  (C8_checkpoint_invariant [2, 3] 1 (fun _ => BatchOutcome.ok) cexResp
      ((fetch_and_store_ratings [2, 3] 1 (fun _ => BatchOutcome.ok) cexResp).1.getD 0
        ⟨[], [], 0⟩) (by decide)).2 (by decide) "2" (by decide)

/-- The `{userId string: score}` pairs stored under mediaId key `k`. -/
def ratingsAt (r : Ratings) (k : String) : List (String × Int) :=
  (r.filter (fun p => p.1 == k)).flatMap (fun p => p.2)

theorem ratingsAt_dictAppend_self (r : Ratings) (k : String) (v : String × Int) :
    v ∈ ratingsAt (dictAppend r k v) k := by
  unfold dictAppend ratingsAt
  by_cases hany : r.any (fun p => p.1 == k)
  · rw [if_pos hany]
    obtain ⟨p, hp, hpk⟩ := List.any_eq_true.mp hany
    refine List.mem_flatMap.mpr ⟨(p.1, p.2 ++ [v]), ?_, by simp⟩
    refine List.mem_filter.mpr ⟨?_, hpk⟩
    exact List.mem_map.mpr ⟨p, hp, by rw [if_pos hpk]⟩
  · rw [if_neg hany]
    refine List.mem_flatMap.mpr ⟨(k, [v]), ?_, by simp⟩
    exact List.mem_filter.mpr ⟨by simp, by simp⟩

theorem ratingsAt_dictAppend_mono (r : Ratings) (k k' : String) (v : String × Int)
    (x : String × Int) (hx : x ∈ ratingsAt r k) :
    x ∈ ratingsAt (dictAppend r k' v) k := by
  unfold ratingsAt at hx ⊢
  obtain ⟨p, hp, hxp⟩ := List.mem_flatMap.mp hx
  obtain ⟨hpr, hpk⟩ := List.mem_filter.mp hp
  unfold dictAppend
  by_cases hany : r.any (fun q => q.1 == k')
  · rw [if_pos hany]
    by_cases he : p.1 == k'
    · refine List.mem_flatMap.mpr ⟨(p.1, p.2 ++ [v]),
        List.mem_filter.mpr ⟨List.mem_map.mpr ⟨p, hpr, by rw [if_pos he]⟩, hpk⟩, ?_⟩
      simp [hxp]
    · exact List.mem_flatMap.mpr ⟨p,
        List.mem_filter.mpr ⟨List.mem_map.mpr ⟨p, hpr, by rw [if_neg he]⟩, hpk⟩, hxp⟩
  · rw [if_neg hany]
    exact List.mem_flatMap.mpr ⟨p,
      List.mem_filter.mpr ⟨List.mem_append.mpr (Or.inl hpr), hpk⟩, hxp⟩

theorem ratingsAt_foldUser_mono (u : Int) :
    ∀ (l : List AnimeEntry) (r : Ratings) (k : String) (x : String × Int),
      x ∈ ratingsAt r k → x ∈ ratingsAt (foldUser r u l) k := by
  intro l
  induction l with
  | nil => exact fun r k x hx => hx
  | cons a l ih =>
    intro r k x hx
    exact ih _ k x (ratingsAt_dictAppend_mono r k _ _ x hx)

theorem ratingsAt_foldUser_mem (u : Int) :
    ∀ (l : List AnimeEntry) (r : Ratings) (a : AnimeEntry), a ∈ l →
      (toString u, a.score) ∈ ratingsAt (foldUser r u l) (toString a.mediaId) := by
  intro l
  induction l with
  | nil => intro r a ha; simp at ha
  | cons a0 l ih =>
    intro r a ha
    rcases List.mem_cons.mp ha with rfl | ha
    · exact ratingsAt_foldUser_mono u l _ _ _ (ratingsAt_dictAppend_self r _ _)
    · exact ih _ a ha

theorem ratingsAt_foldBatch_mono :
    ∀ (ba : List (Int × List AnimeEntry)) (r : Ratings) (k : String) (x : String × Int),
      x ∈ ratingsAt r k → x ∈ ratingsAt (foldBatch r ba) k := by
  intro ba
  induction ba with
  | nil => exact fun r k x hx => hx
  | cons p ba ih =>
    intro r k x hx
    exact ih _ k x (ratingsAt_foldUser_mono p.1 p.2 r k x hx)

/-- C10: `fetchCompletedAnime` applies no score filter — every entry of a
successfully decoded user, score 0 included, appears in the decoded entry
list, and the batch pipeline appends such scores to the ratings table; the
positive-score exclusion exists only in the `fetchAnimeCompleters` stream,
where a score-0 entry contributes nothing. -/
theorem C10_no_score_filter :
    (∀ (ud : UserData) (lg : MediaListGroup) (e : RawEntry),
      lg ∈ ud.lists → e ∈ lg.entries →
      ({ mediaId := e.mediaId, title_romaji := e.media.title.romaji,
          score := e.score } : AnimeEntry) ∈ decodeUserEntries ud) ∧
    (∀ (r : Ratings) (ba : List (Int × List AnimeEntry)) (u : Int)
      (l : List AnimeEntry) (a : AnimeEntry), (u, l) ∈ ba → a ∈ l →
      (toString u, a.score) ∈ ratingsAt (foldBatch r ba) (toString a.mediaId)) ∧
    (∀ (e : PageEntry) (l : List PageEntry), e.score = 0 →
      pageYields (e :: l) = pageYields l) := by
  refine ⟨?_, ?_, ?_⟩
  · intro ud lg e hlg he
    exact List.mem_flatMap.mpr ⟨lg, hlg, List.mem_map.mpr ⟨e, he, rfl⟩⟩
  · intro r ba
    induction ba generalizing r with
    | nil => intro u l a hba; simp at hba
    | cons p ba ih =>
      intro u l a hba ha
      rcases List.mem_cons.mp hba with hba | hba
      · have hmem := ratingsAt_foldUser_mem u l r a ha
        have hgoal : (toString u, a.score) ∈
            ratingsAt (foldBatch (foldUser r p.1 p.2) ba) (toString a.mediaId) := by
          rw [← hba]
          exact ratingsAt_foldBatch_mono ba _ _ _ hmem
        exact hgoal
      · exact ih _ u l a hba ha
  · intro e l he
    simp [pageYields, he]

/-- Witness for C10: a score-0 entry of user 7 lands in the ratings table
under its mediaId key. -/
theorem C10_no_score_filter_witness :
    (toString (7 : Int), (0 : Int)) ∈
      ratingsAt (foldBatch [] [((7 : Int), [⟨3, "A", 0⟩])]) (toString (3 : Int)) :=
  C10_no_score_filter.2.1 [] [(7, [⟨3, "A", 0⟩])] 7 [⟨3, "A", 0⟩] ⟨3, "A", 0⟩
    (by decide) (by decide)

/-- If batch `b` fails with `AnilistRequestError` and no earlier batch
raises an uncaught exception, the generator ends without crashing and every
yielded checkpoint belongs to a batch strictly before `b`. -/
theorem pipelineGo_reqError (uids : List Int) (bs : Nat) (out : Nat → BatchOutcome)
    (resp : Int → Option (List AnimeEntry)) (total : Nat) (b : Nat)
    (hb : out b = .reqError) (hunc : ∀ b' < b, out b' ≠ .uncaught) :
    ∀ fuel b0 r, b0 ≤ b →
      (pipelineGo uids bs out resp total fuel b0 r).2 = false ∧
      ∀ y ∈ (pipelineGo uids bs out resp total fuel b0 r).1, y.lastBatch < b := by
  intro fuel
  induction fuel with
  | zero => intro b0 r _; exact ⟨rfl, by simp [pipelineGo]⟩
  | succ f ih =>
    intro b0 r hb0
    match hob : out b0 with
    | .uncaught =>
      have hb0b : b0 ≠ b := fun he => by rw [he, hb] at hob; cases hob
      exact absurd hob (hunc b0 (by omega))
    | .reqError =>
      refine ⟨by simp [pipelineGo_succ, hob], ?_⟩
      intro y hy
      simp only [pipelineGo_succ, hob] at hy
      simp at hy
    | .privateOrNotFound =>
      have hb0b : b0 ≠ b := fun he => by rw [he, hb] at hob; cases hob
      obtain ⟨hc, hl⟩ := ih (b0 + 1) r (by omega)
      refine ⟨?_, ?_⟩
      · simp only [pipelineGo_succ, hob]
        exact hc
      · intro y hy
        simp only [pipelineGo_succ, hob] at hy
        exact hl y hy
    | .ok =>
      have hb0b : b0 ≠ b := fun he => by rw [he, hb] at hob; cases hob
      obtain ⟨hc, hl⟩ :=
        ih (b0 + 1) (foldBatch r (batchAnime ((uids.drop (b0 * bs)).take bs) resp))
          (by omega)
      by_cases hcp : (b0 + 1) % 20 = 0 ∨ b0 = total - 1
      · refine ⟨?_, ?_⟩
        · simp only [pipelineGo_succ, hob, if_pos hcp]
          exact hc
        · intro y hy
          simp only [pipelineGo_succ, hob, if_pos hcp] at hy
          rcases List.mem_cons.mp hy with rfl | hy
          · show b0 < b
            omega
          · exact hl y hy
      · refine ⟨?_, ?_⟩
        · simp only [pipelineGo_succ, hob, if_neg hcp]
          exact hc
        · intro y hy
          simp only [pipelineGo_succ, hob, if_neg hcp] at hy
          exact hl y hy

/-- C1 (amended): an `AnilistRequestError` raised by the executor during a
batch is *caught* inside `fetch_and_store_ratings` (logged, then `return`):
the generator stops without yielding a checkpoint for the failed or any
later batch, so every previously saved checkpoint stays intact, after which
`main` still writes the result file from the ratings accumulated so far and
the process exits zero even though not all batches completed. -/
theorem C1_requestError_caught (uids : List Int) (bs : Nat)
    (out : Nat → BatchOutcome) (resp : Int → Option (List AnimeEntry)) (b : Nat)
    (hb : out b = .reqError) (hunc : ∀ b' < b, out b' ≠ .uncaught) :
    (main_run uids bs out resp true).exitCode = 0 ∧
    (main_run uids bs out resp true).resultWritten = true ∧
    ∀ y ∈ (main_run uids bs out resp true).saved, y.lastBatch < b := by
  obtain ⟨hc, hl⟩ := pipelineGo_reqError uids bs out resp
    (totalBatches uids.length bs) b hb hunc (totalBatches uids.length bs) 0 []
    (by omega)
  refine ⟨?_, ?_, ?_⟩
  · simp [main_run, fetch_and_store_ratings, hc]
  · simp [main_run, fetch_and_store_ratings, hc]
  · intro y hy
    apply hl
    simpa [main_run, fetch_and_store_ratings] using hy

/-- Counterexample to C1 as stated: when the very first batch fails with
`AnilistRequestError`, the run still writes the result file and exits zero
(with no checkpoint saved and no batch completed), instead of propagating
the error and exiting non-zero. -/
theorem C1_counterexample :
    (main_run [1, 2] 1 (fun _ => BatchOutcome.reqError) cexResp true).exitCode = 0 ∧
    (main_run [1, 2] 1 (fun _ => BatchOutcome.reqError) cexResp true).resultWritten
      = true ∧
    (main_run [1, 2] 1 (fun _ => BatchOutcome.reqError) cexResp true).saved = [] ∧
    totalBatches ([1, 2] : List Int).length 1 = 2 := by decide

/-- Witness for C1: batch 1 of a 2-batch run fails with
`AnilistRequestError`; the run exits zero, writes the result file, and every
saved checkpoint is from a batch before batch 1. -/
theorem C1_requestError_caught_witness :
    (main_run [1, 2] 1
      (fun n => if n = 1 then BatchOutcome.reqError else BatchOutcome.ok)
      cexResp true).exitCode = 0 ∧
    (main_run [1, 2] 1
      (fun n => if n = 1 then BatchOutcome.reqError else BatchOutcome.ok)
      cexResp true).resultWritten = true ∧
    ∀ y ∈ (main_run [1, 2] 1
      (fun n => if n = 1 then BatchOutcome.reqError else BatchOutcome.ok)
      cexResp true).saved, y.lastBatch < 1 :=
  C1_requestError_caught [1, 2] 1
    (fun n => if n = 1 then BatchOutcome.reqError else BatchOutcome.ok)
    cexResp 1 (by decide) (by decide)

end Ptw
